import Mathlib

/-!
# parse-html-head-info: head metadata extraction

A shallow embedding of `src/parse.go` (package `parsehtmlheadinfo`):
`GetSiteHeadInfo`, `requestHtml`, `getHtmlHead`, `extractHeadTags` and
`processHeadTags`.

Modelling conventions.

* `*html.Node` is a finite tree. A non-nil pointer is a `Node`; a pointer that
  may be nil is an `Option Node`. The `FirstChild` / `NextSibling` chain of a
  node is the list `children`, so `n.FirstChild` is `n.children.head?` and the
  loop `for c := n.FirstChild; c != nil; c = c.NextSibling` is a recursion over
  `n.children`.
* A Go run-time panic is a `Fault`; code that can panic returns `Except Fault _`.
* A Go `error` value is a `GoError`; `(T, error)` results keep both components.
* `map[string]string` is `GoMap`, with Go's read semantics: a missing key reads
  as the empty string.
* `int` and `time.Duration` are `Int`; `int64` multiplication wraps
  (`mulInt64`).
* The network, the decompressors and `html.Parse` are outside the repository.
  They are the fields of `World`; the functions of the repository are
  parametrised by it, and record the calls they make to `client.Do` and
  `html.Parse` in a list of `Event`s. The deferred `resp.Body.Close()` and the
  clock readings have no influence on the results and are not recorded.
* `main.go` holds textual copies of `getHtmlHead` (as `findHeadElement`) and of
  `extractHeadTags`; what is proved of the functions below holds of them.
-/

namespace ParseHtmlHeadInfo

/-! ## Data model -/

/-- The node kinds of `golang.org/x/net/html` (`html.NodeType`). -/
inductive NodeType
  | ErrorNode
  | TextNode
  | DocumentNode
  | ElementNode
  | CommentNode
  | DoctypeNode
  | RawNode
  deriving DecidableEq

/-- An attribute of a tag (`html.Attribute`). -/
structure Attribute where
  Namespace : String
  Key : String
  Val : String
  deriving DecidableEq

/-- A node of the parsed document (`html.Node`): its kind, its data (the tag
name of an element, the text of a text node), its attributes in source order
and its children in sibling order. -/
inductive Node where
  | mk (Type_ : NodeType) (Data : String) (Attr : List Attribute) (children : List Node)

/-- The field `Type` of a node. -/
def Node.Type_ : Node → NodeType
  | .mk t _ _ _ => t

/-- The field `Data` of a node. -/
def Node.Data : Node → String
  | .mk _ d _ _ => d

/-- The field `Attr` of a node. -/
def Node.Attr : Node → List Attribute
  | .mk _ _ a _ => a

/-- The children of a node, from `FirstChild` along `NextSibling`. -/
def Node.children : Node → List Node
  | .mk _ _ _ cs => cs

/-- The field `FirstChild` of a node (`none` is the nil pointer). -/
def Node.FirstChild (n : Node) : Option Node :=
  n.children.head?

/-- A run-time panic. -/
inductive Fault
  | nilPointerDereference
  deriving DecidableEq

/-- A Go `map[string]string`, as its list of entries (keys are distinct). -/
structure GoMap where
  entries : List (String × String)
  deriving DecidableEq

/-- The empty map, `make(map[string]string)`. -/
def GoMap.empty : GoMap :=
  ⟨[]⟩

/-- The assignment `m[k] = v`. -/
def GoMap.set (m : GoMap) (k v : String) : GoMap :=
  ⟨(k, v) :: m.entries.filter (fun e => decide (e.1 ≠ k))⟩

/-- The read `m[k]`: the empty string when the key is missing. -/
def GoMap.get (m : GoMap) (k : String) : String :=
  match m.entries.lookup k with
  | some v => v
  | none => ""

/-- The result record (`SiteInfo` of `parse.go`). -/
structure SiteInfo where
  Title : String := ""
  Description : String := ""
  Keywords : String := ""
  IconUrl : String := ""
  RequestSiteCost : String := ""
  deriving DecidableEq

/-- A placeholder for `tls.Config`, which the code only passes along. -/
structure TLSConfig where
  InsecureSkipVerify : Bool
  deriving DecidableEq

/-- The options of one fetch (`ParseInfoConfig`). `Timeout` is a
`time.Duration`, an `int64`. -/
structure ParseInfoConfig where
  URL : String
  Timeout : Int := 0
  ProxyAddress : String := ""
  TLSClientConfig : Option TLSConfig := none
  OnlyBasicInfo : Bool := false
  deriving DecidableEq

/-! ## Machine integers and durations -/

/-- The value range of `int64`. -/
def isInt64 (x : Int) : Prop :=
  -9223372036854775808 ≤ x ∧ x ≤ 9223372036854775807

instance (x : Int) : Decidable (isInt64 x) := by
  unfold isInt64
  infer_instance

/-- Reduction of a mathematical integer to its `int64` representative. -/
def wrapInt64 (x : Int) : Int :=
  (x + 9223372036854775808) % 18446744073709551616 - 9223372036854775808

/-- Multiplication of two `int64` values, as Go computes it (wrapping). -/
def mulInt64 (a b : Int) : Int :=
  wrapInt64 (a * b)

/-- The constant `time.Millisecond`, in nanoseconds. -/
def Millisecond : Int :=
  1000000

/-- The constant `http.StatusOK`. -/
def StatusOK : Int :=
  200

/-! ## The world outside the repository -/

/-- A Go `error`. `lib` is an error returned by a library call;
`requestError` is `fmt.Errorf("website request error: %s", clientErr)`;
`statusError` is
`fmt.Errorf("website request error with %d response code", respStatusCode)`. -/
inductive GoError
  | lib (msg : String)
  | requestError (cause : GoError)
  | statusError (code : Int)
  deriving DecidableEq

/-- The message of an error (its `Error()` method). -/
def GoError.Error : GoError → String
  | .lib msg => msg
  | .requestError cause => "website request error: " ++ cause.Error
  | .statusError code => "website request error with " ++ toString code ++ " response code"

/-- A byte stream (`io.Reader`), as the bytes it yields. -/
abbrev Stream := List UInt8

/-- An outgoing request (`http.Request`): method, URL, and the headers set. -/
structure Request where
  Method : String
  URL : String
  Header : List (String × String)
  deriving DecidableEq

/-- The custom transport (`http.Transport`) built when a proxy is given. -/
structure Transport where
  Proxy : String
  TLSClientConfig : Option TLSConfig
  deriving DecidableEq

/-- The HTTP client (`http.Client`): `Transport` is `none` for the nil
transport; `Timeout` is a `time.Duration` in nanoseconds. -/
structure Client where
  Transport : Option Transport
  Timeout : Int
  deriving DecidableEq

/-- What the code reads of a response (`http.Response`): the status code, the
value of `resp.Header.Get("Content-Encoding")`, and the body. -/
structure Response where
  StatusCode : Int
  ContentEncoding : String
  Body : Stream
  deriving DecidableEq

/-- The library calls the code makes. `clientDo` also gives the time that
`time.Since(requestHtmlStart)` measures after it returns. -/
structure World where
  newRequest : String → String → Except GoError Unit
  urlParse : String → Except GoError String
  clientDo : Client → Request → Except GoError (Response × Int)
  gzipNewReader : Stream → Except GoError Stream
  flateNewReader : Stream → Stream
  brotliNewReader : Stream → Stream
  htmlParse : Stream → Except GoError Node
  durationString : Int → String

/-- A call to the outside that the model records. -/
inductive Event
  | clientDo (client : Client) (request : Request)
  | htmlParse (reader : Stream)
  deriving DecidableEq

/-! ## The functions of `parse.go` -/

/-- The request that `requestHtml` builds: `http.NewRequest("GET", url, nil)`
followed by the five `request.Header.Set` calls. -/
def buildRequest (url : String) : Request :=
  { Method := "GET"
    URL := url
    Header :=
      [("Accept", "text/html,application/xhtml+xml,application/xml;q=0.9"),
       ("Accept-Language", "zh-CN,zh;q=0.9,en-CN;q=0.8,en;q=0.7,fr-FR;q=0.6,fr;q=0.5"),
       ("Accept-Encoding", "gzip, deflate, br"),
       ("User-Agent", "Mozilla/5.0 (Windows NT 10.0; Win64; x64) AppleWebKit/537.36 (KHTML, like Gecko) Chrome/123.0.0.0 Safari/537.36"),
       ("Connection", "keep-alive")] }

/-- Lines 67-78 of `parse.go`: the transport is built only for a non-empty
`ProxyAddress`, and an address that does not parse is an error. -/
def buildTransport (w : World) (info : ParseInfoConfig) : Except GoError (Option Transport) :=
  if info.ProxyAddress ≠ "" then
    match w.urlParse info.ProxyAddress with
    | .error err => .error err
    | .ok proxy => .ok (some { Proxy := proxy, TLSClientConfig := info.TLSClientConfig })
  else
    .ok none

/-- Lines 80-96 of `parse.go`: the client and its timeout. -/
def buildClient (info : ParseInfoConfig) (transport : Option Transport) : Client :=
  let timeout : Int :=
    if info.Timeout ≠ 0 then mulInt64 Millisecond info.Timeout
    else mulInt64 Millisecond 5000
  match transport with
  | some t => { Transport := some t, Timeout := timeout }
  | none => { Transport := none, Timeout := timeout }

/-- Lines 107-122 of `parse.go`: the switch on the `Content-Encoding` header
that chooses the reader given to the markup parser. -/
def selectBodyReader (w : World) (resp : Response) : Except GoError Stream :=
  if resp.ContentEncoding = "gzip" then
    match w.gzipNewReader resp.Body with
    | .error err => .error err
    | .ok bodyReader => .ok bodyReader
  else if resp.ContentEncoding = "deflate" then
    .ok (w.flateNewReader resp.Body)
  else if resp.ContentEncoding = "br" then
    .ok (w.brotliNewReader resp.Body)
  else
    .ok resp.Body

/-- The method `requestHtml`: the events it causes, and either the error it
returns or the triple (status code, document, elapsed time). -/
def requestHtml (w : World) (info : ParseInfoConfig) :
    List Event × Except GoError (Int × Node × Int) :=
  match w.newRequest "GET" info.URL with
  | .error err => ([], .error err)
  | .ok _ =>
    let request := buildRequest info.URL
    match buildTransport w info with
    | .error err => ([], .error err)
    | .ok transport =>
      let client := buildClient info transport
      match w.clientDo client request with
      | .error clientErr => ([.clientDo client request], .error (.requestError clientErr))
      | .ok (resp, requestHtmlCost) =>
        match selectBodyReader w resp with
        | .error err => ([.clientDo client request], .error err)
        | .ok bodyReader =>
          match w.htmlParse bodyReader with
          | .error parseErr =>
            ([.clientDo client request, .htmlParse bodyReader], .error parseErr)
          | .ok doc =>
            ([.clientDo client request, .htmlParse bodyReader],
              .ok (resp.StatusCode, doc, requestHtmlCost))

mutual
/-- The function `getHtmlHead` on a non-nil node. -/
def getHtmlHead : Node → Option Node
  | .mk t d a cs =>
    if t = NodeType.ElementNode ∧ d = "head" then some (.mk t d a cs)
    else getHtmlHeadLoop cs
/-- The loop of `getHtmlHead` over the children still to visit. -/
def getHtmlHeadLoop : List Node → Option Node
  | [] => none
  | c :: rest =>
    match getHtmlHead c with
    | some result => some result
    | none => getHtmlHeadLoop rest
end

/-- The attribute map of one tag: `for _, attr := range child.Attr` assigning
`m[attr.Key] = attr.Val`. -/
def attrMap (attrs : List Attribute) : GoMap :=
  attrs.foldl (fun m attr => m.set attr.Key attr.Val) GoMap.empty

/-- The loop of `extractHeadTags` over the children still to visit, with the
current values of `title`, `linkTags` and `metaTags`. -/
def extractHeadTagsLoop :
    List Node → String → List GoMap → List GoMap → Except Fault (String × List GoMap × List GoMap)
  | [], title, linkTags, metaTags => .ok (title, linkTags, metaTags)
  | child :: rest, title, linkTags, metaTags =>
    let metaTags1 :=
      if child.Type_ = NodeType.ElementNode ∧ child.Data = "meta" then
        metaTags ++ [attrMap child.Attr]
      else metaTags
    let titleStep : Except Fault String :=
      if child.Type_ = NodeType.ElementNode ∧ child.Data = "title" then
        match child.FirstChild with
        | none => .error Fault.nilPointerDereference
        | some firstChild => .ok firstChild.Data
      else .ok title
    match titleStep with
    | .error f => .error f
    | .ok title1 =>
      let linkTags1 :=
        if child.Type_ = NodeType.ElementNode ∧ child.Data = "link" then
          linkTags ++ [attrMap child.Attr]
        else linkTags
      extractHeadTagsLoop rest title1 linkTags1 metaTags1

/-- The function `extractHeadTags`; the result is `(Title, LinkTags, MetaTags)`.
Reading `headNode.FirstChild` of a nil `headNode` panics. -/
def extractHeadTags (headNode : Option Node) :
    Except Fault (String × List GoMap × List GoMap) :=
  match headNode with
  | none => .error Fault.nilPointerDereference
  | some h => extractHeadTagsLoop h.children "" [] []

/-- The body of the loop over `metaTags` in `processHeadTags`, on the pair
`(description, keywords)`. -/
def metaStep (acc : String × String) (meta_ : GoMap) : String × String :=
  let description := if meta_.get "name" = "description" then meta_.get "content" else acc.1
  let keywords := if meta_.get "keywords" = "keywords" then meta_.get "content" else acc.2
  (description, keywords)

/-- The body of the loop over `linkTags` in `processHeadTags`. -/
def linkStep (iconUrl : String) (linkTag : GoMap) : String :=
  if linkTag.get "rel" = "icon" then linkTag.get "href" else iconUrl

/-- The function `processHeadTags`. -/
def processHeadTags (headNode : Option Node) : Except Fault SiteInfo :=
  match extractHeadTags headNode with
  | .error f => .error f
  | .ok (title, linkTags, metaTags) =>
    let dk := metaTags.foldl metaStep ("", "")
    let iconUrl := linkTags.foldl linkStep ""
    .ok { Title := title, IconUrl := iconUrl, Description := dk.1, Keywords := dk.2 }

/-- The method `GetSiteHeadInfo`: the events it causes, and either a panic or
the pair it returns (`none` is the nil error). -/
def GetSiteHeadInfo (w : World) (info : ParseInfoConfig) :
    List Event × Except Fault (SiteInfo × Option GoError) :=
  match requestHtml w info with
  | (events, .error reqErr) => (events, .ok ({}, some reqErr))
  | (events, .ok (respStatusCode, doc, requestHtmlCost)) =>
    if respStatusCode ≠ StatusOK then
      (events, .ok ({}, some (.statusError respStatusCode)))
    else
      let head := getHtmlHead doc
      match processHeadTags head with
      | .error f => (events, .error f)
      | .ok returnInfo =>
        (events, .ok ({ Title := returnInfo.Title
                        Description := returnInfo.Description
                        Keywords := returnInfo.Keywords
                        IconUrl := returnInfo.IconUrl
                        RequestSiteCost := w.durationString requestHtmlCost }, none))

/-! ## Specification-side definitions -/

/-- The test of `getHtmlHead`: an element node whose tag name is `head`. -/
def isHeadElement (n : Node) : Bool :=
  decide (n.Type_ = NodeType.ElementNode ∧ n.Data = "head")

mutual
/-- The nodes of a tree in depth-first pre-order: the root, then the nodes of
each child's subtree, children in sibling order. -/
def preorder : Node → List Node
  | .mk t d a cs => .mk t d a cs :: preorderList cs
/-- The pre-order listing of a sequence of sibling subtrees. -/
def preorderList : List Node → List Node
  | [] => []
  | c :: rest => preorder c ++ preorderList rest
end

/-- An element node with the given tag name. -/
def isElement (tag : String) (n : Node) : Bool :=
  decide (n.Type_ = NodeType.ElementNode ∧ n.Data = tag)

/-- The value of the attribute `key` on a tag, as the specification reads it:
that of the last occurrence of the key, and the empty string when the key does
not occur. -/
def attrVal (attrs : List Attribute) (key : String) : String :=
  match (attrs.filter (fun a => decide (a.Key = key))).getLast? with
  | some a => a.Val
  | none => ""

/-- The text of a title element: the data of its first child (the empty string
stands for a title without children, which the hypotheses exclude). -/
def titleText (t : Node) : String :=
  match t.FirstChild with
  | some c => c.Data
  | none => ""

/-- The title the specification asks for: the text of the last `title` element
among the direct children, the empty string when there is none. -/
def lastTitle (children : List Node) : String :=
  match (children.filter (isElement "title")).getLast? with
  | some t => titleText t
  | none => ""

/-- The description the specification asks for: the `content` of the last
direct `meta` child whose `name` is `description`. -/
def lastDescription (children : List Node) : String :=
  match (children.filter
      (fun c => isElement "meta" c && decide (attrVal c.Attr "name" = "description"))).getLast? with
  | some m => attrVal m.Attr "content"
  | none => ""

/-- The keywords the specification asks for: the `content` of the last direct
`meta` child whose `name` is `keywords`. -/
def lastKeywords (children : List Node) : String :=
  match (children.filter
      (fun c => isElement "meta" c && decide (attrVal c.Attr "name" = "keywords"))).getLast? with
  | some m => attrVal m.Attr "content"
  | none => ""

/-- The keywords the code computes: the `content` of the last direct `meta`
child whose attribute named `keywords` has the value `keywords`. -/
def codeKeywords (children : List Node) : String :=
  match (children.filter
      (fun c => isElement "meta" c && decide (attrVal c.Attr "keywords" = "keywords"))).getLast? with
  | some m => attrVal m.Attr "content"
  | none => ""

/-- The icon URL the specification asks for: the `href` of the last direct
`link` child whose `rel` is `icon`. -/
def lastIcon (children : List Node) : String :=
  match (children.filter
      (fun c => isElement "link" c && decide (attrVal c.Attr "rel" = "icon"))).getLast? with
  | some l => attrVal l.Attr "href"
  | none => ""

/-- Every direct `title` child of the head has at least one child. -/
def wellFormedTitles (head : Node) : Prop :=
  ∀ c ∈ head.children, isElement "title" c = true → c.children ≠ []

/-- What a direct child contributes besides its own subtree: kind, tag name
and attributes. -/
def shallow (n : Node) : NodeType × String × List Attribute :=
  (n.Type_, n.Data, n.Attr)

/-! ## Sample inputs -/

/-- A text node. -/
def text (s : String) : Node :=
  .mk NodeType.TextNode s [] []

/-- An element node. -/
def element (tag : String) (attrs : List Attribute) (children : List Node) : Node :=
  .mk NodeType.ElementNode tag attrs children

/-- An attribute without namespace. -/
def attr (key val : String) : Attribute :=
  { Namespace := "", Key := key, Val := val }

/-- A document node. -/
def document (children : List Node) : Node :=
  .mk NodeType.DocumentNode "" [] children

/-- A world in which every library call succeeds: the server answers with the
given response after `7` nanoseconds, the toy decoders strip a header of one,
two and three bytes, and the parser yields the given document whatever it
reads. -/
def sampleWorld (resp : Response) (doc : Node) : World :=
  { newRequest := fun _ _ => .ok ()
    urlParse := fun s => .ok s
    clientDo := fun _ _ => .ok (resp, 7)
    gzipNewReader := fun b => .ok (b.drop 1)
    flateNewReader := fun b => b.drop 2
    brotliNewReader := fun b => b.drop 3
    htmlParse := fun _ => .ok doc
    durationString := fun d => toString d ++ "ns" }

/-- A world like `sampleWorld` whose gzip decoder rejects every body. -/
def badGzipWorld (resp : Response) (doc : Node) : World :=
  { sampleWorld resp doc with
    gzipNewReader := fun _ => .error (.lib "gzip: invalid header") }

/-- A world like `sampleWorld` whose parser fails on every stream. -/
def badParseWorld (resp : Response) (doc : Node) : World :=
  { sampleWorld resp doc with
    htmlParse := fun _ => .error (.lib "unexpected EOF") }

/-- A configuration with only the URL set. -/
def sampleConfig : ParseInfoConfig :=
  { URL := "http://example.com" }

/-- A document tree without any `head` element. It is a value of the input
type of `getHtmlHead`; `html.Parse` itself never builds such a tree, because it
inserts the implied `head`. -/
def docNoHead : Node :=
  document [element "html" [] [element "body" [] [text "head"]]]

/-- The head of `<head><title></title></head>`: a title without children. -/
def headEmptyTitle : Node :=
  element "head" [] [element "title" [] []]

/-- The head of `<head><meta name="keywords" content="go,html"></head>`. -/
def headKeywords : Node :=
  element "head" [] [element "meta" [attr "name" "keywords", attr "content" "go,html"] []]

/-- The head with two titles, with texts `a` then `b`. -/
def headTwoTitles (a b : String) : Node :=
  element "head" [] [element "title" [] [text a], element "title" [] [text b]]

/-- The head of the specification's round-trip example: a title with text `t`,
a `meta` with `name=description` and `content=d`, a `link` with `rel=icon` and
`href=f`. -/
def headRoundTrip (t d f : String) : Node :=
  element "head" []
    [element "title" [] [text t],
     element "meta" [attr "name" "description", attr "content" d] [],
     element "link" [attr "rel" "icon", attr "href" f] []]

/-- A head whose only `meta` with `name=description` is nested inside a
`noscript` child, not a direct child. -/
def headNestedMeta : Node :=
  element "head" []
    [element "noscript" [] [element "meta" [attr "name" "description", attr "content" "deep"] []]]

/-- Wrapping a head into a document: `<html><head>...</head><body></body></html>`. -/
def docOf (head : Node) : Node :=
  document [element "html" [] [head, element "body" [] []]]

/-- The document `<html><head></head><body></body></html>`, the tree that
`html.Parse` builds from an empty body: the parser supplies the `head` element
that the input leaves out. -/
def docEmptyHead : Node :=
  docOf (element "head" [] [])

/-- A response with status 200, no content encoding and an empty body. -/
def okResponse : Response :=
  { StatusCode := 200, ContentEncoding := "", Body := [] }

/-- A response with status 404 that declares gzip. -/
def notFoundGzip : Response :=
  { StatusCode := 404, ContentEncoding := "gzip", Body := [1, 2, 3] }

/-! ## Lemmas on maps and last-wins loops -/

theorem lookup_filter_ne (l : List (String × String)) (k k' : String) (h : k' ≠ k) :
    (l.filter (fun e => decide (e.1 ≠ k))).lookup k' = l.lookup k' := by
  induction l with
  | nil => rfl
  | cons e rest ih =>
    obtain ⟨a, b⟩ := e
    by_cases ha : a = k
    · subst ha
      have hk : (k' == a) = false := by simpa using h
      simpa [List.filter_cons, List.lookup_cons, hk] using ih
    · by_cases hk : k' = a
      · subst hk
        simp [List.filter_cons, ha]
      · have hk2 : (k' == a) = false := by simpa using hk
        simpa [List.filter_cons, List.lookup_cons, ha, hk2] using ih

theorem GoMap.get_set (m : GoMap) (k v k' : String) :
    (m.set k v).get k' = if k' = k then v else m.get k' := by
  by_cases h : k' = k
  · subst h
    simp [GoMap.get, GoMap.set]
  · have hk : (k' == k) = false := by simpa using h
    have hl := lookup_filter_ne m.entries k k' h
    simp only [GoMap.get, GoMap.set, List.lookup_cons, hk, hl, if_neg h]

theorem getLast?_filter_cons {α : Type} (p : α → Bool) (a : α) (l : List α) :
    ((a :: l).filter p).getLast? =
      match (l.filter p).getLast? with
      | some x => some x
      | none => if p a = true then some a else none := by
  by_cases h : p a = true
  · rw [List.filter_cons_of_pos h, List.getLast?_cons]
    cases (l.filter p).getLast? <;> simp [h]
  · rw [List.filter_cons_of_neg h]
    cases (l.filter p).getLast? <;> simp [h]

theorem lastWins_foldl {α β : Type} (p : α → Bool) (f : α → β) (l : List α) (init : β) :
    l.foldl (fun acc x => if p x = true then f x else acc) init =
      match (l.filter p).getLast? with
      | some x => f x
      | none => init := by
  induction l generalizing init with
  | nil => rfl
  | cons a rest ih =>
    rw [List.foldl_cons, ih, getLast?_filter_cons]
    cases (rest.filter p).getLast? <;> by_cases h : p a = true <;> simp [h]

theorem attrMap_get (attrs : List Attribute) (key : String) :
    (attrMap attrs).get key = attrVal attrs key := by
  have gen : ∀ (l : List Attribute) (m : GoMap),
      (l.foldl (fun m attr => m.set attr.Key attr.Val) m).get key =
        match (l.filter (fun a => decide (a.Key = key))).getLast? with
        | some a => a.Val
        | none => m.get key := by
    intro l
    induction l with
    | nil => intro m; rfl
    | cons a rest ih =>
      intro m
      rw [List.foldl_cons, ih, getLast?_filter_cons, GoMap.get_set]
      cases (rest.filter (fun a => decide (a.Key = key))).getLast? with
      | some x => rfl
      | none =>
        by_cases h : a.Key = key
        · simp [h]
        · have h2 : ¬ key = a.Key := fun e => h e.symm
          simp [h, h2]
  have := gen attrs GoMap.empty
  simpa [attrMap, attrVal, GoMap.get, GoMap.empty] using this

/-! ## The loop of `extractHeadTags` -/

theorem extractHeadTagsLoop_ok (cs : List Node)
    (hwf : ∀ c ∈ cs, isElement "title" c = true → c.children ≠ [])
    (title : String) (linkTags metaTags : List GoMap) :
    extractHeadTagsLoop cs title linkTags metaTags = .ok
      ((match (cs.filter (isElement "title")).getLast? with
        | some t => titleText t
        | none => title),
       linkTags ++ (cs.filter (isElement "link")).map (fun c => attrMap c.Attr),
       metaTags ++ (cs.filter (isElement "meta")).map (fun c => attrMap c.Attr)) := by
  induction cs generalizing title linkTags metaTags with
  | nil => simp [extractHeadTagsLoop]
  | cons c rest ih =>
    have hrest : ∀ x ∈ rest, isElement "title" x = true → x.children ≠ [] :=
      fun x hx => hwf x (List.mem_cons_of_mem _ hx)
    have hc := hwf c (List.mem_cons_self _ _)
    rw [extractHeadTagsLoop]
    by_cases ht : c.Type_ = NodeType.ElementNode ∧ c.Data = "title"
    · have hti : isElement "title" c = true := by simp [isElement, ht]
      have hne := hc hti
      obtain ⟨fc, tl, hfc⟩ := List.exists_cons_of_ne_nil hne
      have hm : ¬ (c.Type_ = NodeType.ElementNode ∧ c.Data = "meta") := by
        rintro ⟨_, h⟩; rw [ht.2] at h; exact absurd h (by decide)
      have hl : ¬ (c.Type_ = NodeType.ElementNode ∧ c.Data = "link") := by
        rintro ⟨_, h⟩; rw [ht.2] at h; exact absurd h (by decide)
      have hmi : isElement "meta" c = false := by simpa [isElement] using hm
      have hli : isElement "link" c = false := by simpa [isElement] using hl
      simp only [if_pos ht, if_neg hm, if_neg hl, Node.FirstChild, hfc, List.head?_cons]
      rw [ih hrest, getLast?_filter_cons, List.filter_cons, List.filter_cons, hmi, hli, hti]
      cases (rest.filter (isElement "title")).getLast? <;>
        simp [titleText, Node.FirstChild, hfc]
    · have hti : isElement "title" c = false := by simpa [isElement] using ht
      simp only [if_neg ht]
      rw [ih hrest, getLast?_filter_cons, hti]
      by_cases hm : c.Type_ = NodeType.ElementNode ∧ c.Data = "meta"
      · have hl : ¬ (c.Type_ = NodeType.ElementNode ∧ c.Data = "link") := by
          rintro ⟨_, h⟩; rw [hm.2] at h; exact absurd h (by decide)
        have hmi : isElement "meta" c = true := by simp [isElement, hm]
        have hli : isElement "link" c = false := by simpa [isElement] using hl
        rw [List.filter_cons, List.filter_cons, hmi, hli]
        cases (rest.filter (isElement "title")).getLast? <;> simp [hm, hl]
      · have hmi : isElement "meta" c = false := by simpa [isElement] using hm
        by_cases hl : c.Type_ = NodeType.ElementNode ∧ c.Data = "link"
        · have hli : isElement "link" c = true := by simp [isElement, hl]
          rw [List.filter_cons, List.filter_cons, hmi, hli]
          cases (rest.filter (isElement "title")).getLast? <;> simp [hm, hl]
        · have hli : isElement "link" c = false := by simpa [isElement] using hl
          rw [List.filter_cons, List.filter_cons, hmi, hli]
          cases (rest.filter (isElement "title")).getLast? <;> simp [hm, hl]

/-! ## The loops of `processHeadTags` -/

theorem lastWins_tags (cs : List Node) (tag k1 v1 k2 : String) (init : String) :
    ((cs.filter (isElement tag)).map (fun c => attrMap c.Attr)).foldl
        (fun acc m => if m.get k1 = v1 then m.get k2 else acc) init =
      match (cs.filter (fun c => isElement tag c && decide (attrVal c.Attr k1 = v1))).getLast? with
      | some c => attrVal c.Attr k2
      | none => init := by
  induction cs generalizing init with
  | nil => rfl
  | cons c rest ih =>
    rw [getLast?_filter_cons]
    by_cases hc : isElement tag c = true
    · rw [List.filter_cons_of_pos hc, List.map_cons, List.foldl_cons, ih, attrMap_get, attrMap_get]
      cases (rest.filter
        (fun c => isElement tag c && decide (attrVal c.Attr k1 = v1))).getLast? with
      | some x => rfl
      | none => by_cases h : attrVal c.Attr k1 = v1 <;> simp [hc, h]
    · rw [List.filter_cons_of_neg hc, ih]
      cases (rest.filter
        (fun c => isElement tag c && decide (attrVal c.Attr k1 = v1))).getLast? with
      | some x => rfl
      | none => simp [hc]

theorem metaStep_foldl (metas : List GoMap) (acc : String × String) :
    metas.foldl metaStep acc =
      (metas.foldl (fun d m => if m.get "name" = "description" then m.get "content" else d) acc.1,
       metas.foldl (fun k m => if m.get "keywords" = "keywords" then m.get "content" else k) acc.2) := by
  induction metas generalizing acc with
  | nil => rfl
  | cons m rest ih => rw [List.foldl_cons, ih]; rfl

theorem linkStep_foldl (links : List GoMap) (init : String) :
    links.foldl linkStep init =
      links.foldl (fun u l => if l.get "rel" = "icon" then l.get "href" else u) init := rfl

/-- On a head whose titles are well formed, `processHeadTags` returns, and each
field is the last-wins selection over the direct children. -/
theorem processHeadTags_ok (head : Node) (hwf : wellFormedTitles head) :
    processHeadTags (some head) = .ok
      { Title := lastTitle head.children
        Description := lastDescription head.children
        Keywords := codeKeywords head.children
        IconUrl := lastIcon head.children
        RequestSiteCost := "" } := by
  unfold processHeadTags extractHeadTags
  simp only [extractHeadTagsLoop_ok head.children hwf, List.nil_append]
  simp only [metaStep_foldl, linkStep_foldl, lastWins_tags]
  rfl

/-! ## The head locator -/

mutual
theorem getHtmlHead_eq_find (n : Node) :
    getHtmlHead n = (preorder n).find? isHeadElement := by
  cases n with
  | mk t d a cs =>
    rw [getHtmlHead, preorder, List.find?_cons]
    by_cases h : t = NodeType.ElementNode ∧ d = "head"
    · simp [isHeadElement, Node.Type_, Node.Data, h]
    · have hb : isHeadElement (.mk t d a cs) = false := by
        simp [isHeadElement, Node.Type_, Node.Data, h]
      rw [if_neg h, hb]
      exact getHtmlHeadLoop_eq_find cs
theorem getHtmlHeadLoop_eq_find (cs : List Node) :
    getHtmlHeadLoop cs = (preorderList cs).find? isHeadElement := by
  cases cs with
  | nil => simp [getHtmlHeadLoop, preorderList]
  | cons c rest =>
    rw [getHtmlHeadLoop, preorderList, List.find?_append,
      ← getHtmlHead_eq_find c, ← getHtmlHeadLoop_eq_find rest]
    cases getHtmlHead c <;> simp
end

/-! ## The fetch pipeline -/

/-- Once the request is built and answered, `requestHtml` is decided by the
decoder selection and the parser. -/
theorem requestHtml_answered (w : World) (info : ParseInfoConfig) (transport : Option Transport)
    (resp : Response) (cost : Int)
    (hreq : w.newRequest "GET" info.URL = .ok ())
    (htr : buildTransport w info = .ok transport)
    (hdo : w.clientDo (buildClient info transport) (buildRequest info.URL) = .ok (resp, cost)) :
    requestHtml w info =
      match selectBodyReader w resp with
      | .error err => ([.clientDo (buildClient info transport) (buildRequest info.URL)], .error err)
      | .ok bodyReader =>
        match w.htmlParse bodyReader with
        | .error parseErr =>
          ([.clientDo (buildClient info transport) (buildRequest info.URL), .htmlParse bodyReader],
            .error parseErr)
        | .ok doc =>
          ([.clientDo (buildClient info transport) (buildRequest info.URL), .htmlParse bodyReader],
            .ok (resp.StatusCode, doc, cost)) := by
  unfold requestHtml
  simp only [hreq, htr, hdo]

theorem GetSiteHeadInfo_of_error (w : World) (info : ParseInfoConfig) (events : List Event)
    (err : GoError) (h : requestHtml w info = (events, .error err)) :
    GetSiteHeadInfo w info = (events, .ok ({}, some err)) := by
  unfold GetSiteHeadInfo
  rw [h]

theorem GetSiteHeadInfo_of_status (w : World) (info : ParseInfoConfig) (events : List Event)
    (code : Int) (doc : Node) (cost : Int)
    (h : requestHtml w info = (events, .ok (code, doc, cost))) (hcode : code ≠ StatusOK) :
    GetSiteHeadInfo w info = (events, .ok ({}, some (.statusError code))) := by
  unfold GetSiteHeadInfo
  rw [h]
  simp only [if_pos hcode]

theorem GetSiteHeadInfo_of_ok (w : World) (info : ParseInfoConfig) (events : List Event)
    (doc : Node) (cost : Int)
    (h : requestHtml w info = (events, .ok (StatusOK, doc, cost))) :
    GetSiteHeadInfo w info =
      match processHeadTags (getHtmlHead doc) with
      | .error f => (events, .error f)
      | .ok returnInfo =>
        (events, .ok ({ Title := returnInfo.Title
                        Description := returnInfo.Description
                        Keywords := returnInfo.Keywords
                        IconUrl := returnInfo.IconUrl
                        RequestSiteCost := w.durationString cost }, none)) := by
  unfold GetSiteHeadInfo
  rw [h]
  simp

/-- Whenever the document has no `head` element and the status is 200,
`GetSiteHeadInfo` panics: `processHeadTags` is called on the nil pointer. -/
theorem GetSiteHeadInfo_nil_head (w : World) (info : ParseInfoConfig) (events : List Event)
    (doc : Node) (cost : Int)
    (h : requestHtml w info = (events, .ok (StatusOK, doc, cost)))
    (hhead : getHtmlHead doc = none) :
    GetSiteHeadInfo w info = (events, .error Fault.nilPointerDereference) := by
  rw [GetSiteHeadInfo_of_ok w info events doc cost h, hhead]
  rfl

theorem getHtmlHead_eq_none_iff (n : Node) :
    getHtmlHead n = none ↔
      ∀ m ∈ preorder n, ¬ (m.Type_ = NodeType.ElementNode ∧ m.Data = "head") := by
  rw [getHtmlHead_eq_find, List.find?_eq_none]
  simp [isHeadElement]

theorem getHtmlHead_some (n m : Node) (h : getHtmlHead n = some m) :
    m ∈ preorder n ∧ m.Type_ = NodeType.ElementNode ∧ m.Data = "head" := by
  rw [getHtmlHead_eq_find] at h
  have h1 := List.find?_some h
  have h2 := List.mem_of_find?_eq_some h
  simp only [isHeadElement, decide_eq_true_eq] at h1
  exact ⟨h2, h1⟩

/-- A childless `title` among the children makes the loop of `extractHeadTags`
panic, whatever the other children are. -/
theorem extractHeadTagsLoop_fault (cs : List Node)
    (hbad : ∃ c ∈ cs, isElement "title" c = true ∧ c.children = [])
    (title : String) (linkTags metaTags : List GoMap) :
    extractHeadTagsLoop cs title linkTags metaTags = .error Fault.nilPointerDereference := by
  induction cs generalizing title linkTags metaTags with
  | nil => obtain ⟨c, hc, _⟩ := hbad; cases hc
  | cons c rest ih =>
    rw [extractHeadTagsLoop]
    by_cases ht : c.Type_ = NodeType.ElementNode ∧ c.Data = "title"
    · cases hch : c.children with
      | nil => simp [ht, Node.FirstChild, hch]
      | cons fc tl =>
        have hrest : ∃ x ∈ rest, isElement "title" x = true ∧ x.children = [] := by
          obtain ⟨x, hx, hxt, hxc⟩ := hbad
          rcases List.mem_cons.mp hx with rfl | hx
          · rw [hch] at hxc; cases hxc
          · exact ⟨x, hx, hxt, hxc⟩
        simp only [if_pos ht, Node.FirstChild, hch, List.head?_cons]
        exact ih hrest _ _ _
    · have hrest : ∃ x ∈ rest, isElement "title" x = true ∧ x.children = [] := by
        obtain ⟨x, hx, hxt, hxc⟩ := hbad
        rcases List.mem_cons.mp hx with rfl | hx
        · exact absurd (by simpa [isElement] using hxt) ht
        · exact ⟨x, hx, hxt, hxc⟩
      simp only [if_neg ht]
      exact ih hrest _ _ _

/-! ## The claims -/

/-- C1 as stated is false: the tree `docNoHead` has no `head` element,
`getHtmlHead` returns nil on it, and `processHeadTags` on that nil pointer
panics at `headNode.FirstChild`; so `GetSiteHeadInfo`, which composes the two
without a test, panics when a parser hands it this tree with status 200,
where the claim has an empty `SiteInfo` and no error. -/
theorem GetSiteHeadInfo_noHead_counterexample :
    (∀ m ∈ preorder docNoHead, ¬ (m.Type_ = NodeType.ElementNode ∧ m.Data = "head")) ∧
    getHtmlHead docNoHead = none ∧
    processHeadTags (getHtmlHead docNoHead) = .error Fault.nilPointerDereference ∧
    processHeadTags (getHtmlHead docNoHead) ≠ .ok {} ∧
    GetSiteHeadInfo (sampleWorld okResponse docNoHead) sampleConfig =
      ([.clientDo { Transport := none, Timeout := 5000000000 } (buildRequest "http://example.com"),
        .htmlParse []],
       .error Fault.nilPointerDereference) := by
  refine ⟨(getHtmlHead_eq_none_iff docNoHead).mp rfl, rfl, rfl, ?_, rfl⟩
  have h : processHeadTags (getHtmlHead docNoHead) = .error Fault.nilPointerDereference := rfl
  rw [h]
  intro e
  cases e

theorem filter_eq_nil_of_not_element (cs : List Node) (tag : String)
    (q : Node → Bool) (h : ∀ c ∈ cs, isElement tag c = false) :
    cs.filter (fun c => isElement tag c && q c) = [] := by
  rw [List.filter_eq_nil_iff]
  intro c hc
  simp [h c hc]

/-- On a head without `title`, `meta` and `link` children `processHeadTags`
returns the empty record. -/
theorem processHeadTags_nothing (head : Node)
    (hno : ∀ c ∈ head.children,
      isElement "title" c = false ∧ isElement "meta" c = false ∧ isElement "link" c = false) :
    processHeadTags (some head) =
      .ok { Title := "", Description := "", Keywords := "", IconUrl := "" } := by
  have hwf : wellFormedTitles head := by
    intro c hc ht
    rw [(hno c hc).1] at ht
    cases ht
  have ht : head.children.filter (isElement "title") = [] := by
    rw [List.filter_eq_nil_iff]
    intro c hc
    simp [(hno c hc).1]
  have hd := filter_eq_nil_of_not_element head.children "meta"
    (fun c => decide (attrVal c.Attr "name" = "description")) (fun c hc => (hno c hc).2.1)
  have hk := filter_eq_nil_of_not_element head.children "meta"
    (fun c => decide (attrVal c.Attr "keywords" = "keywords")) (fun c hc => (hno c hc).2.1)
  have hi := filter_eq_nil_of_not_element head.children "link"
    (fun c => decide (attrVal c.Attr "rel" = "icon")) (fun c hc => (hno c hc).2.2)
  rw [processHeadTags_ok head hwf]
  unfold lastTitle lastDescription codeKeywords lastIcon
  rw [ht, hd, hk, hi]
  rfl

/-- C1 (amended): for every document tree answered with status 200 that
contains a `head` element, `getHtmlHead` finds a head, and when that head has
no `title`, `meta` or `link` element among its direct children
`GetSiteHeadInfo` does not panic and returns the nil error with a `SiteInfo`
whose Title, Description, Keywords and IconUrl are all the empty string. -/
theorem GetSiteHeadInfo_emptyHead (w : World) (info : ParseInfoConfig) (events : List Event)
    (doc : Node) (cost : Int)
    (h : requestHtml w info = (events, .ok (StatusOK, doc, cost)))
    (hhas : ∃ m ∈ preorder doc, m.Type_ = NodeType.ElementNode ∧ m.Data = "head") :
    ∃ head, getHtmlHead doc = some head ∧
      head.Type_ = NodeType.ElementNode ∧ head.Data = "head" ∧
      ((∀ c ∈ head.children,
          isElement "title" c = false ∧ isElement "meta" c = false ∧
            isElement "link" c = false) →
        GetSiteHeadInfo w info =
          (events, .ok ({ Title := "", Description := "", Keywords := "", IconUrl := "",
                          RequestSiteCost := w.durationString cost }, none))) := by
  cases hg : getHtmlHead doc with
  | none =>
    obtain ⟨m, hm, hmh⟩ := hhas
    exact absurd hmh ((getHtmlHead_eq_none_iff doc).mp hg m hm)
  | some head =>
    have hs := getHtmlHead_some doc head hg
    refine ⟨head, rfl, hs.2.1, hs.2.2, ?_⟩
    intro hno
    rw [GetSiteHeadInfo_of_ok w info events doc cost h, hg, processHeadTags_nothing head hno]

/-- C1 (amended), at the tree that the parser builds from an empty body,
answered with status 200: the result is the empty record and the nil error. -/
theorem GetSiteHeadInfo_emptyHead_witness :
    GetSiteHeadInfo (sampleWorld okResponse docEmptyHead) sampleConfig =
      ([.clientDo (buildClient sampleConfig none) (buildRequest sampleConfig.URL),
        .htmlParse []],
       .ok ({ Title := "", Description := "", Keywords := "", IconUrl := "",
              RequestSiteCost := (sampleWorld okResponse docEmptyHead).durationString 7 },
            none)) := by
  obtain ⟨head, hh, _, _, himp⟩ :=
    GetSiteHeadInfo_emptyHead (sampleWorld okResponse docEmptyHead) sampleConfig
      [.clientDo (buildClient sampleConfig none) (buildRequest sampleConfig.URL),
        .htmlParse []]
      docEmptyHead 7 rfl
      ⟨element "head" [] [],
        by simp [docEmptyHead, docOf, document, element, preorder, preorderList], rfl, rfl⟩
  have hhead : getHtmlHead docEmptyHead = some (element "head" [] []) := rfl
  rw [hhead] at hh
  cases hh
  exact himp (fun c hc => by cases hc)

/-- C2 (the code departs from the claim): on the head of
`<head><title></title></head>`, whose title has no children, `extractHeadTags`
and `processHeadTags` panic on `child.FirstChild.Data`, and so does
`GetSiteHeadInfo` on the document around it; no empty title is produced. -/
theorem extractHeadTags_emptyTitle_panics :
    (element "title" [] []).FirstChild = none ∧
    extractHeadTags (some headEmptyTitle) = .error Fault.nilPointerDereference ∧
    processHeadTags (some headEmptyTitle) = .error Fault.nilPointerDereference ∧
    (GetSiteHeadInfo (sampleWorld okResponse (docOf headEmptyTitle)) sampleConfig).2 =
      .error Fault.nilPointerDereference :=
  ⟨rfl, rfl, rfl, rfl⟩

/-- C3 as stated is false: a 404 response that declares gzip and whose body the
gzip decoder rejects makes `GetSiteHeadInfo` return the decoder's error, not
the status error; and a 404 response whose body the parser rejects makes it
return the parser's error, after the parser has been run on the body. -/
theorem GetSiteHeadInfo_non200_counterexample :
    notFoundGzip.StatusCode ≠ StatusOK ∧
    (GetSiteHeadInfo (badGzipWorld notFoundGzip docNoHead) sampleConfig).2 =
      .ok ({}, some (.lib "gzip: invalid header")) ∧
    (GetSiteHeadInfo (badGzipWorld notFoundGzip docNoHead) sampleConfig).2 ≠
      .ok ({}, some (.statusError 404)) ∧
    GetSiteHeadInfo (badParseWorld notFoundGzip docNoHead) sampleConfig =
      ([.clientDo { Transport := none, Timeout := 5000000000 } (buildRequest "http://example.com"),
        .htmlParse [2, 3]],
       .ok ({}, some (.lib "unexpected EOF"))) ∧
    Event.htmlParse [2, 3] ∈
      (GetSiteHeadInfo (sampleWorld notFoundGzip docNoHead) sampleConfig).1 := by
  refine ⟨by decide, rfl, ?_, rfl, ?_⟩
  · have h : (GetSiteHeadInfo (badGzipWorld notFoundGzip docNoHead) sampleConfig).2 =
        .ok ({}, some (.lib "gzip: invalid header")) := rfl
    rw [h]
    intro e
    injection e with e
    injection e with _ e
    injection e with e
    cases e
  · have h : (GetSiteHeadInfo (sampleWorld notFoundGzip docNoHead) sampleConfig).1 =
        [.clientDo { Transport := none, Timeout := 5000000000 } (buildRequest "http://example.com"),
          .htmlParse [2, 3]] := rfl
    rw [h]
    exact List.mem_cons_of_mem _ (List.mem_cons_self _ _)

/-- C3 (amended): for every answered request whose status code is not 200,
`GetSiteHeadInfo` does not panic and returns the empty `SiteInfo` with an
error. The parser is run on the selected reader before the status is looked
at: when decoder and parser accept the body the error is the status error
carrying the code; when the decoder rejects the body the error is the
decoder's, and when the parser rejects it the error is the parser's. -/
theorem GetSiteHeadInfo_non200 (w : World) (info : ParseInfoConfig)
    (transport : Option Transport) (resp : Response) (cost : Int)
    (hreq : w.newRequest "GET" info.URL = .ok ())
    (htr : buildTransport w info = .ok transport)
    (hdo : w.clientDo (buildClient info transport) (buildRequest info.URL) = .ok (resp, cost))
    (hcode : resp.StatusCode ≠ StatusOK) :
    (∀ r doc, selectBodyReader w resp = .ok r → w.htmlParse r = .ok doc →
      GetSiteHeadInfo w info =
        ([.clientDo (buildClient info transport) (buildRequest info.URL), .htmlParse r],
         .ok ({}, some (.statusError resp.StatusCode)))) ∧
    (∀ err, selectBodyReader w resp = .error err →
      GetSiteHeadInfo w info =
        ([.clientDo (buildClient info transport) (buildRequest info.URL)],
         .ok ({}, some err))) ∧
    (∀ r err, selectBodyReader w resp = .ok r → w.htmlParse r = .error err →
      GetSiteHeadInfo w info =
        ([.clientDo (buildClient info transport) (buildRequest info.URL), .htmlParse r],
         .ok ({}, some err))) := by
  have hr := requestHtml_answered w info transport resp cost hreq htr hdo
  refine ⟨?_, ?_, ?_⟩
  · intro r doc hsel hparse
    rw [hsel] at hr
    simp only [hparse] at hr
    exact GetSiteHeadInfo_of_status w info _ _ doc cost hr hcode
  · intro err hsel
    rw [hsel] at hr
    exact GetSiteHeadInfo_of_error w info _ err hr
  · intro r err hsel hparse
    rw [hsel] at hr
    simp only [hparse] at hr
    exact GetSiteHeadInfo_of_error w info _ err hr

/-- C3 (amended), at a 404 response whose gzip body decodes and parses. -/
theorem GetSiteHeadInfo_non200_witness :
    GetSiteHeadInfo (sampleWorld notFoundGzip docNoHead) sampleConfig =
      ([.clientDo (buildClient sampleConfig none) (buildRequest sampleConfig.URL),
        .htmlParse [2, 3]],
       .ok ({}, some (.statusError 404))) :=
  (GetSiteHeadInfo_non200 (sampleWorld notFoundGzip docNoHead) sampleConfig none notFoundGzip 7
    rfl rfl rfl (by decide)).1 [2, 3] docNoHead rfl rfl

/-- C4: `getHtmlHead` returns the first node of the depth-first pre-order
listing (root first, children in sibling order) that is an element named
`head`; it returns nil exactly when the tree has no such node; and a node it
returns is a node of the tree, of kind element, with data `head`, so a node of
another kind with data `head` is never returned. -/
theorem getHtmlHead_first_in_preorder (n : Node) :
    getHtmlHead n = (preorder n).find? isHeadElement ∧
    (getHtmlHead n = none ↔
      ∀ m ∈ preorder n, ¬ (m.Type_ = NodeType.ElementNode ∧ m.Data = "head")) ∧
    (∀ m, getHtmlHead n = some m →
      m ∈ preorder n ∧ m.Type_ = NodeType.ElementNode ∧ m.Data = "head") ∧
    (∀ m, m.Type_ ≠ NodeType.ElementNode → getHtmlHead n ≠ some m) :=
  ⟨getHtmlHead_eq_find n, getHtmlHead_eq_none_iff n, fun m h => getHtmlHead_some n m h,
    fun m hm h => hm (getHtmlHead_some n m h).2.1⟩

/-- C5 (the code departs from the claim): on the head of
`<head><meta name="keywords" content="go,html"></head>` the keywords the claim
asks for are `go,html`, and `processHeadTags` returns the empty string as
Keywords, because it tests the attribute named `keywords`, not `name`. -/
theorem processHeadTags_keywords_missed :
    lastKeywords headKeywords.children = "go,html" ∧
    processHeadTags (some headKeywords) =
      .ok { Title := "", Description := "", Keywords := "", IconUrl := "" } ∧
    processHeadTags
        (some (element "head" []
          [element "meta" [attr "keywords" "keywords", attr "content" "x"] []])) =
      .ok { Title := "", Description := "", Keywords := "x", IconUrl := "" } :=
  ⟨rfl, rfl, rfl⟩

/-- C6: on a head whose direct `title` children each have a child,
`extractHeadTags` and `processHeadTags` return, and the title is the data of
the first child of the last direct `title` element; it is the empty string when
no direct child is a `title` element; two titles with texts `a` then `b` give
the title `b`. -/
theorem extractHeadTags_title_last_wins (head : Node) (hwf : wellFormedTitles head) :
    ∃ linkTags metaTags info,
      extractHeadTags (some head) = .ok (info.Title, linkTags, metaTags) ∧
      processHeadTags (some head) = .ok info ∧
      info.Title = lastTitle head.children ∧
      (∀ t, (head.children.filter (isElement "title")).getLast? = some t →
        ∃ firstChild, t.FirstChild = some firstChild ∧ info.Title = firstChild.Data) ∧
      ((∀ c ∈ head.children, isElement "title" c = false) → info.Title = "") ∧
      (∀ a b : String, processHeadTags (some (headTwoTitles a b)) =
        .ok { Title := b, Description := "", Keywords := "", IconUrl := "" }) := by
  refine ⟨(head.children.filter (isElement "link")).map (fun c => attrMap c.Attr),
    (head.children.filter (isElement "meta")).map (fun c => attrMap c.Attr), _, ?_,
    processHeadTags_ok head hwf, rfl, ?_, ?_, fun a b => rfl⟩
  · unfold extractHeadTags
    simp only [extractHeadTagsLoop_ok head.children hwf]
    rfl
  · intro t ht
    have hmem := List.mem_of_getLast?_eq_some ht
    have htitle := (List.mem_filter.mp hmem).2
    have hne := hwf t (List.mem_filter.mp hmem).1 htitle
    obtain ⟨fc, tl, hfc⟩ := List.exists_cons_of_ne_nil hne
    refine ⟨fc, by simp [Node.FirstChild, hfc], ?_⟩
    simp [lastTitle, ht, titleText, Node.FirstChild, hfc]
  · intro hno
    have : head.children.filter (isElement "title") = [] := by
      rw [List.filter_eq_nil_iff]
      intro c hc
      simp [hno c hc]
    simp [lastTitle, this]

/-- C6, at the head with titles `A` then `B`. -/
theorem extractHeadTags_title_last_wins_witness :
    ∃ linkTags metaTags info,
      extractHeadTags (some (headTwoTitles "A" "B")) = .ok (info.Title, linkTags, metaTags) ∧
      processHeadTags (some (headTwoTitles "A" "B")) = .ok info ∧
      info.Title = "B" := by
  have hwf : wellFormedTitles (headTwoTitles "A" "B") := by
    intro c hc _
    simp [headTwoTitles, element, Node.children] at hc
    rcases hc with rfl | rfl <;> simp [Node.children]
  obtain ⟨l, m, info, h1, h2, h3, _⟩ :=
    extractHeadTags_title_last_wins (headTwoTitles "A" "B") hwf
  exact ⟨l, m, info, h1, h2, h3.trans rfl⟩

theorem getLast?_filter_shallow (p : NodeType × String × List Attribute → Bool)
    (cs : List Node) :
    ((cs.filter (fun c => p (shallow c))).getLast?).map shallow =
      ((cs.map shallow).filter p).getLast? := by
  rw [List.filter_map, List.getLast?_map]
  rfl

/-- A last-wins selection that looks only at kind, tag name and attributes of
the direct children gives the same result on two child lists that agree on
those. -/
theorem lastOf_shallow (p : NodeType × String × List Attribute → Bool)
    (f : NodeType × String × List Attribute → String) (cs1 cs2 : List Node)
    (h : cs1.map shallow = cs2.map shallow) :
    (match (cs1.filter (fun c => p (shallow c))).getLast? with
      | some c => f (shallow c)
      | none => "") =
    (match (cs2.filter (fun c => p (shallow c))).getLast? with
      | some c => f (shallow c)
      | none => "") := by
  have h1 := getLast?_filter_shallow p cs1
  have h2 := getLast?_filter_shallow p cs2
  rw [h] at h1
  rw [← h2] at h1
  cases e1 : (cs1.filter (fun c => p (shallow c))).getLast? <;>
    cases e2 : (cs2.filter (fun c => p (shallow c))).getLast? <;>
    simp [e1, e2] at h1 ⊢
  rw [h1]

theorem lastDescription_shallow (cs1 cs2 : List Node)
    (h : cs1.map shallow = cs2.map shallow) :
    lastDescription cs1 = lastDescription cs2 :=
  lastOf_shallow
    (fun s => decide (s.1 = NodeType.ElementNode ∧ s.2.1 = "meta") &&
      decide (attrVal s.2.2 "name" = "description"))
    (fun s => attrVal s.2.2 "content") cs1 cs2 h

theorem lastIcon_shallow (cs1 cs2 : List Node)
    (h : cs1.map shallow = cs2.map shallow) :
    lastIcon cs1 = lastIcon cs2 :=
  lastOf_shallow
    (fun s => decide (s.1 = NodeType.ElementNode ∧ s.2.1 = "link") &&
      decide (attrVal s.2.2 "rel" = "icon"))
    (fun s => attrVal s.2.2 "href") cs1 cs2 h

theorem wellFormedTitles_headRoundTrip (t d f : String) :
    wellFormedTitles (headRoundTrip t d f) := by
  intro c hc ht
  simp only [headRoundTrip, element, Node.children, List.mem_cons, List.mem_singleton,
    List.not_mem_nil, or_false] at hc
  rcases hc with rfl | rfl | rfl
  · simp [Node.children]
  · simp [isElement, Node.Type_, Node.Data] at ht
  · simp [isElement, Node.Type_, Node.Data] at ht

theorem wellFormedTitles_headNestedMeta : wellFormedTitles headNestedMeta := by
  intro c hc ht
  simp only [headNestedMeta, element, Node.children, List.mem_singleton] at hc
  subst hc
  exact absurd ht (by decide)

/-- C7: on a head whose titles are well formed, `processHeadTags` returns and
the Description is the `content` attribute of the last direct `meta` child
whose `name` attribute is exactly `description` (an attribute reads as its last
occurrence, an absent one as the empty string); it is the empty string when no
direct `meta` child matches, in particular when there is no direct `meta`
child; and it depends only on kind, tag name and attributes of the direct
children, so a `meta` nested deeper is not considered. -/
theorem processHeadTags_description (head : Node) (hwf : wellFormedTitles head) :
    ∃ info, processHeadTags (some head) = .ok info ∧
      info.Description = lastDescription head.children ∧
      (∀ m, (head.children.filter (fun c => isElement "meta" c &&
            decide (attrVal c.Attr "name" = "description"))).getLast? = some m →
        info.Description = attrVal m.Attr "content") ∧
      ((∀ c ∈ head.children,
          ¬ (isElement "meta" c = true ∧ attrVal c.Attr "name" = "description")) →
        info.Description = "") ∧
      ((∀ c ∈ head.children, isElement "meta" c = false) → info.Description = "") ∧
      (∀ head2, wellFormedTitles head2 →
        head2.children.map shallow = head.children.map shallow →
        ∃ info2, processHeadTags (some head2) = .ok info2 ∧
          info2.Description = info.Description) ∧
      processHeadTags (some headNestedMeta) =
        .ok { Title := "", Description := "", Keywords := "", IconUrl := "" } := by
  have hnone : (∀ c ∈ head.children,
      ¬ (isElement "meta" c = true ∧ attrVal c.Attr "name" = "description")) →
      lastDescription head.children = "" := by
    intro hno
    have : head.children.filter (fun c => isElement "meta" c &&
        decide (attrVal c.Attr "name" = "description")) = [] := by
      rw [List.filter_eq_nil_iff]
      intro c hc
      simpa using hno c hc
    simp [lastDescription, this]
  refine ⟨_, processHeadTags_ok head hwf, rfl, ?_, hnone, ?_, ?_, rfl⟩
  · intro m hm
    simp [lastDescription, hm]
  · intro hno
    exact hnone (fun c hc h => by simp [hno c hc] at h)
  · intro head2 hwf2 hsh
    exact ⟨_, processHeadTags_ok head2 hwf2, lastDescription_shallow _ _ hsh⟩

/-- C7, at the head of the round-trip example: the Description is `D`. -/
theorem processHeadTags_description_witness :
    ∃ info, processHeadTags (some (headRoundTrip "T" "D" "/f.ico")) = .ok info ∧
      info.Description = "D" := by
  obtain ⟨info, h1, h2, _⟩ :=
    processHeadTags_description (headRoundTrip "T" "D" "/f.ico")
      (wellFormedTitles_headRoundTrip "T" "D" "/f.ico")
  exact ⟨info, h1, h2.trans rfl⟩

/-- C8: on a head whose titles are well formed, `processHeadTags` returns and
the IconUrl is the `href` attribute of the last direct `link` child whose `rel`
attribute is exactly `icon` (an absent `href` reads as the empty string); it is
the empty string when no direct `link` child matches; and for the head with
children title (text `t`), meta (`name=description`, `content=d`) and link
(`rel=icon`, `href=f`) the result is exactly Title `t`, Description `d`,
IconUrl `f` and empty Keywords. -/
theorem processHeadTags_iconUrl (head : Node) (hwf : wellFormedTitles head) :
    ∃ info, processHeadTags (some head) = .ok info ∧
      info.IconUrl = lastIcon head.children ∧
      (∀ l, (head.children.filter (fun c => isElement "link" c &&
            decide (attrVal c.Attr "rel" = "icon"))).getLast? = some l →
        info.IconUrl = attrVal l.Attr "href" ∧
        ((∀ a ∈ l.Attr, a.Key ≠ "href") → info.IconUrl = "")) ∧
      ((∀ c ∈ head.children,
          ¬ (isElement "link" c = true ∧ attrVal c.Attr "rel" = "icon")) →
        info.IconUrl = "") ∧
      (∀ head2, wellFormedTitles head2 →
        head2.children.map shallow = head.children.map shallow →
        ∃ info2, processHeadTags (some head2) = .ok info2 ∧ info2.IconUrl = info.IconUrl) ∧
      (∀ t d f : String, processHeadTags (some (headRoundTrip t d f)) =
        .ok { Title := t, Description := d, IconUrl := f, Keywords := "" }) := by
  refine ⟨_, processHeadTags_ok head hwf, rfl, ?_, ?_, ?_, fun t d f => rfl⟩
  · intro l hl
    refine ⟨by simp [lastIcon, hl], ?_⟩
    intro habs
    have : l.Attr.filter (fun a => decide (a.Key = "href")) = [] := by
      rw [List.filter_eq_nil_iff]
      intro a ha
      simpa using habs a ha
    show lastIcon head.children = ""
    unfold lastIcon
    rw [hl]
    show attrVal l.Attr "href" = ""
    unfold attrVal
    rw [this]
    rfl
  · intro hno
    have : head.children.filter (fun c => isElement "link" c &&
        decide (attrVal c.Attr "rel" = "icon")) = [] := by
      rw [List.filter_eq_nil_iff]
      intro c hc
      simpa using hno c hc
    simp [lastIcon, this]
  · intro head2 hwf2 hsh
    exact ⟨_, processHeadTags_ok head2 hwf2, lastIcon_shallow _ _ hsh⟩

/-- C8, at the head of the round-trip example: the IconUrl is `/f.ico`. -/
theorem processHeadTags_iconUrl_witness :
    ∃ info, processHeadTags (some (headRoundTrip "T" "D" "/f.ico")) = .ok info ∧
      info.IconUrl = "/f.ico" := by
  obtain ⟨info, h1, h2, _⟩ :=
    processHeadTags_iconUrl (headRoundTrip "T" "D" "/f.ico")
      (wellFormedTitles_headRoundTrip "T" "D" "/f.ico")
  exact ⟨info, h1, h2.trans rfl⟩

theorem requestHtml_first_event (w : World) (info : ParseInfoConfig)
    (transport : Option Transport)
    (hreq : w.newRequest "GET" info.URL = .ok ())
    (htr : buildTransport w info = .ok transport) :
    (requestHtml w info).1.head? =
      some (.clientDo (buildClient info transport) (buildRequest info.URL)) := by
  cases hdo : w.clientDo (buildClient info transport) (buildRequest info.URL) with
  | error e =>
    unfold requestHtml
    simp only [hreq, htr, hdo]
    rfl
  | ok rc =>
    obtain ⟨resp, cost⟩ := rc
    rw [requestHtml_answered w info transport resp cost hreq htr hdo]
    cases hsel : selectBodyReader w resp with
    | error e => rfl
    | ok r =>
      cases hp : w.htmlParse r with
      | error e => simp only [hp]; rfl
      | ok doc => simp only [hp]; rfl

/-- C9: for an answered request whose `Content-Encoding` value is none of the
literals `gzip`, `deflate`, `br`, the decoder selection yields the response
body itself, no decoder is applied, and the one parser call of `requestHtml`
is on that body; the result of `requestHtml` is the parser's on the raw body. -/
theorem requestHtml_passthrough (w : World) (info : ParseInfoConfig)
    (transport : Option Transport) (resp : Response) (cost : Int)
    (hreq : w.newRequest "GET" info.URL = .ok ())
    (htr : buildTransport w info = .ok transport)
    (hdo : w.clientDo (buildClient info transport) (buildRequest info.URL) = .ok (resp, cost))
    (hgzip : resp.ContentEncoding ≠ "gzip")
    (hdeflate : resp.ContentEncoding ≠ "deflate")
    (hbr : resp.ContentEncoding ≠ "br") :
    selectBodyReader w resp = .ok resp.Body ∧
    (requestHtml w info).1 =
      [.clientDo (buildClient info transport) (buildRequest info.URL), .htmlParse resp.Body] ∧
    (requestHtml w info).2 =
      match w.htmlParse resp.Body with
      | .error parseErr => .error parseErr
      | .ok doc => .ok (resp.StatusCode, doc, cost) := by
  have hsel : selectBodyReader w resp = .ok resp.Body := by
    unfold selectBodyReader
    rw [if_neg hgzip, if_neg hdeflate, if_neg hbr]
  have hr := requestHtml_answered w info transport resp cost hreq htr hdo
  rw [hsel] at hr
  refine ⟨hsel, ?_, ?_⟩
  · rw [hr]
    cases hp : w.htmlParse resp.Body <;> simp only [hp]
  · rw [hr]
    cases hp : w.htmlParse resp.Body <;> simp only [hp]

/-- C9, at a response that declares `GZIP` (upper case): the toy gzip decoder
would strip a byte, and the parser is given all of `[1, 2, 3]`. -/
theorem requestHtml_passthrough_witness :
    (requestHtml (sampleWorld { StatusCode := 200, ContentEncoding := "GZIP", Body := [1, 2, 3] }
        docNoHead) sampleConfig).1 =
      [.clientDo (buildClient sampleConfig none) (buildRequest sampleConfig.URL),
        .htmlParse [1, 2, 3]] :=
  (requestHtml_passthrough
    (sampleWorld { StatusCode := 200, ContentEncoding := "GZIP", Body := [1, 2, 3] } docNoHead)
    sampleConfig none { StatusCode := 200, ContentEncoding := "GZIP", Body := [1, 2, 3] } 7
    rfl rfl rfl (by decide) (by decide) (by decide)).2.1

/-- C10 as stated is false: `Timeout = 9223372036855` is a non-zero `int64`
value, and the timeout given to the client is `-9223372036854551616`
nanoseconds, not `9223372036855` milliseconds; the multiplication wraps. -/
theorem requestHtml_timeout_counterexample :
    isInt64 9223372036855 ∧
    (requestHtml (sampleWorld okResponse docNoHead)
        { URL := "http://example.com", Timeout := 9223372036855 }).1.head? =
      some (.clientDo { Transport := none, Timeout := -9223372036854551616 }
        (buildRequest "http://example.com")) ∧
    (buildClient { URL := "http://example.com", Timeout := 9223372036855 } none).Timeout ≠
      9223372036855 * Millisecond := by
  refine ⟨by decide, rfl, ?_⟩
  have h : (buildClient { URL := "http://example.com", Timeout := 9223372036855 } none).Timeout =
      -9223372036854551616 := rfl
  rw [h]
  decide

theorem buildClient_Timeout (info : ParseInfoConfig) (transport : Option Transport) :
    (buildClient info transport).Timeout =
      if info.Timeout ≠ 0 then mulInt64 Millisecond info.Timeout
      else mulInt64 Millisecond 5000 := by
  unfold buildClient
  cases transport <;> rfl

/-- C10 (amended): once the request and the transport are built, the client
that `requestHtml` uses has a timeout of 5000 milliseconds when `Timeout` is
zero; for a non-zero `int64` value of `Timeout` it is exactly `Timeout`
milliseconds if and only if `Timeout` lies between `-9223372036854` and
`9223372036854`, and in every case it is `Timeout` times 1000000 reduced to
`int64`. -/
theorem requestHtml_timeout (w : World) (info : ParseInfoConfig)
    (transport : Option Transport)
    (hreq : w.newRequest "GET" info.URL = .ok ())
    (htr : buildTransport w info = .ok transport)
    (h64 : isInt64 info.Timeout) :
    ∃ client,
      (requestHtml w info).1.head? = some (.clientDo client (buildRequest info.URL)) ∧
      client.Transport = transport ∧
      (info.Timeout = 0 → client.Timeout = 5000 * Millisecond) ∧
      (info.Timeout ≠ 0 →
        (client.Timeout = info.Timeout * Millisecond ↔
          -9223372036854 ≤ info.Timeout ∧ info.Timeout ≤ 9223372036854)) ∧
      (info.Timeout ≠ 0 → client.Timeout = wrapInt64 (info.Timeout * Millisecond)) := by
  refine ⟨buildClient info transport, requestHtml_first_event w info transport hreq htr,
    ?_, ?_, ?_, ?_⟩
  · unfold buildClient
    cases transport <;> rfl
  · intro h0
    rw [buildClient_Timeout, h0]
    decide
  · intro h0
    rw [buildClient_Timeout, if_pos h0]
    unfold isInt64 at h64
    unfold mulInt64 wrapInt64 Millisecond
    constructor
    · intro h
      omega
    · intro h
      omega
  · intro h0
    rw [buildClient_Timeout, if_pos h0]
    unfold mulInt64
    rw [mul_comm]

/-- C10 (amended), at `Timeout = 250`: the client timeout is 250 milliseconds. -/
theorem requestHtml_timeout_witness :
    ∃ client,
      (requestHtml (sampleWorld okResponse docNoHead)
        { URL := "http://example.com", Timeout := 250 }).1.head? =
        some (.clientDo client (buildRequest "http://example.com")) ∧
      client.Timeout = 250 * Millisecond := by
  obtain ⟨client, h1, _, _, h3, _⟩ :=
    requestHtml_timeout (sampleWorld okResponse docNoHead)
      { URL := "http://example.com", Timeout := 250 } none rfl rfl (by decide)
  exact ⟨client, h1, (h3 (by decide)).mpr (by decide)⟩

end ParseHtmlHeadInfo
